import Mathlib

/-!
Verification of `src/utils/evaluation.py` (repository kdha0727/HDAID2021).

The file shallowly embeds the two routines of the module:

* `all_together` — the evaluation loop: it iterates a dataset of
  `(input, target)` tensor pairs, normalises each input to a 4-D batch
  (raising a `TypeError` for any other dimensionality), runs the model,
  and accumulates four scalar metrics weighted by batch size, plus the
  flattened per-pixel argmax labels from which a 6x6 confusion matrix is
  built at the end.
* `draw_confusion_matrix` — modelled by its two pure observables: the
  summary-statistics block rendered under the heatmap, and the final
  state of the (possibly mutated) matrix argument.

Tensors are modelled as a shape together with a flat row-major data list
of rationals.  Framework calls whose numeric semantics is transcendental
(`F.binary_cross_entropy` composed with `softmax`) are abstracted as a
function parameter `bceFn`; the model itself is a parameter that may
raise (`Except`), mirroring exceptions propagating out of `model(x)`.
-/

/-- A Python/torch exception, split into the `TypeError` raised by
`all_together` itself and any other exception coming from a framework
call. -/
inductive PyExc where
  | typeError (msg : String)
  | other (msg : String)
deriving DecidableEq

/-- A torch tensor: a shape (list of dimension sizes) and a flat
row-major data list of rationals. -/
structure Tensor where
  shape : List ℕ
  data : List ℚ
deriving DecidableEq

/-- `t.ndim` — the number of dimensions. -/
def Tensor.ndim (t : Tensor) : ℕ := t.shape.length

/-- `t.unsqueeze(0)` — prepend a batch axis of size 1; the flat
row-major data is unchanged. -/
def Tensor.unsqueeze0 (t : Tensor) : Tensor := ⟨1 :: t.shape, t.data⟩

/-- `t.size(0)` — the size of the leading dimension. -/
def Tensor.size0 (t : Tensor) : ℕ := t.shape.headD 0

/-- `t.clamp(0., 1.)` — clamp every element into `[0, 1]`. -/
def Tensor.clamp01 (t : Tensor) : Tensor :=
  ⟨t.shape, t.data.map (fun v => max 0 (min 1 v))⟩

/-- Elementwise product of two same-shaped tensors (`pred * true`). -/
def Tensor.hmul (a b : Tensor) : Tensor :=
  ⟨a.shape, List.zipWith (fun x y => x * y) a.data b.data⟩

/-- Elementwise sum of two same-shaped tensors (`pred + true`). -/
def Tensor.hadd (a b : Tensor) : Tensor :=
  ⟨a.shape, List.zipWith (fun x y => x + y) a.data b.data⟩

/-- Element `(i, j, k, l)` of a 4-D tensor of shape `[n, c, h, w]`
(row-major flat index `((i*c+j)*h+k)*w+l`); `0` outside a 4-D shape. -/
def Tensor.at4 (t : Tensor) (i j k l : ℕ) : ℚ :=
  match t.shape with
  | [_, c, h, w] => t.data.getD (((i * c + j) * h + k) * w + l) 0
  | _ => 0

/-- Index of the first maximal element of a list (torch `argmax`
returns the first maximal index); `0` on the empty list. -/
def argmaxIdx (xs : List ℚ) : ℕ :=
  (xs.enum.foldl (fun b q => if q.2 > b.2 then q else b) (0, xs.headD 0)).1

/-- The channel column of a 4-D tensor `[n, c, h, w]` at batch `i`,
row `k`, column `l`: the list of values over the `c` axis. -/
def Tensor.channelSlice (t : Tensor) (i k l : ℕ) : List ℚ :=
  match t.shape with
  | [_, c, _, _] => (List.range c).map (fun j => t.at4 i j k l)
  | _ => []

/-- `argmax(dim=-3)` at pixel `(i, k, l)`: the first maximal channel. -/
def argmaxLabelAt (t : Tensor) (i k l : ℕ) : ℕ :=
  argmaxIdx (t.channelSlice i k l)

/-- `t.argmax(dim=-3).view(-1)` for a 4-D tensor `[n, c, h, w]`: the
per-pixel class labels, flattened in row-major `(i, k, l)` order. -/
def Tensor.argmaxFlat (t : Tensor) : List ℕ :=
  match t.shape with
  | [n, _, h, w] =>
    (List.range n).flatMap (fun i =>
      (List.range h).flatMap (fun k =>
        (List.range w).map (fun l => argmaxLabelAt t i k l)))
  | _ => []

/-- `torch.eq(a, b).float().mean()` on two equal-length flattened label
lists: the fraction of positions where the labels agree. -/
def fracEq (p t : List ℕ) : ℚ :=
  (((p.zip t).countP (fun q => q.1 == q.2) : ℕ) : ℚ) / ((p.length : ℕ) : ℚ)

/-- Modelled from the spec: `models.functional.one_hot_nd` is not under
`src/`.  Per its use site (`one_hot_nd(pred_argmax, pred.size(dim=-3),
nd=2)` whose result multiplies/adds with a `[n, c, h, w]` tensor), it
one-hot encodes the per-pixel argmax labels back into the class
dimension. -/
def oneHot4 (t : Tensor) : Tensor :=
  match t.shape with
  | [n, c, h, w] =>
    ⟨[n, c, h, w],
      (List.range n).flatMap (fun i =>
        (List.range c).flatMap (fun j =>
          (List.range h).flatMap (fun k =>
            (List.range w).map (fun l =>
              if argmaxLabelAt t i k l = j then (1 : ℚ) else 0))))⟩
  | s => ⟨s, t.data⟩

/-- Sum of all elements of sample `i` of a 4-D tensor `[n, c, h, w]`. -/
def sampleSum (t : Tensor) (i : ℕ) : ℚ :=
  match t.shape with
  | [_, c, h, w] =>
    ((List.range c).map (fun j =>
      ((List.range h).map (fun k =>
        ((List.range w).map (fun l => t.at4 i j k l)).sum)).sum)).sum
  | _ => 0

/-- Modelled from the spec: `models.functional._dice_loss` is not under
`src/`.  Per the spec glossary ("Dice coefficient — standard
segmentation overlap metric") and the call site (`_dice_loss(mul, add,
nd=2, reduction='mean')` with `mul = pred*true`, `add = pred+true`), the
per-sample Dice loss is `1 - 2*sum(mul)/sum(add)` over the non-batch
axes, averaged over the batch. -/
def diceLossMean (mul add : Tensor) : ℚ :=
  match mul.shape with
  | [n, _, _, _] =>
    ((List.range n).map (fun i => 1 - 2 * sampleSum mul i / sampleSum add i)).sum
      / ((n : ℕ) : ℚ)
  | _ => 0

/-- Modelled from the spec: `models.functional._iou_loss` is not under
`src/`.  Per the spec glossary ("IoU — standard segmentation overlap
metric") and the call site, the per-sample IoU loss is
`1 - sum(mul)/(sum(add) - sum(mul))`, averaged over the batch. -/
def iouLossMean (mul add : Tensor) : ℚ :=
  match mul.shape with
  | [n, _, _, _] =>
    ((List.range n).map (fun i =>
      1 - sampleSum mul i / (sampleSum add i - sampleSum mul i))).sum
      / ((n : ℕ) : ℚ)
  | _ => 0

/-- `sklearn.metrics.confusion_matrix(y_true, y_pred, labels=range(n))`:
entry `(i, j)` counts the positions whose true label is `i` and whose
predicted label is `j`. -/
def confusion_matrix (y_true y_pred : List ℕ) (n : ℕ) : List (List ℕ) :=
  (List.range n).map (fun i =>
    (List.range n).map (fun j =>
      (y_true.zip y_pred).countP (fun q => q.1 == i && q.2 == j)))

/-- The loop accumulators of `all_together`: the lists of per-batch
flattened predicted/true labels, the running sample count, and the four
weighted metric sums. -/
structure EvalAcc where
  logits : List (List ℕ)
  targets : List (List ℕ)
  total : ℕ
  correct : ℚ
  bce : ℚ
  dice : ℚ
  iou : ℚ
deriving DecidableEq

/-- `logits, targets = [], []; total = correct = 0; bce = dice = iou = 0.` -/
def initAcc : EvalAcc := ⟨[], [], 0, 0, 0, 0, 0⟩

/-- The dimensionality dispatch at the top of the loop body: a 4-D input
is used as given with `size = x.size(0)`; a 3-D input and its target are
unsqueezed into a batch of size 1; anything else raises
`TypeError("Invalid Input Dim")`. -/
def normalizeDims (p : Tensor × Tensor) : Except PyExc (Tensor × Tensor × ℕ) :=
  if p.1.ndim = 4 then .ok (p.1, p.2, p.1.size0)
  else if p.1.ndim = 3 then .ok (p.1.unsqueeze0, p.2.unsqueeze0, 1)
  else .error (.typeError "Invalid Input Dim")

/-- One iteration of the evaluation loop of `all_together`.  `bceFn`
abstracts `F.binary_cross_entropy(pred.softmax(dim=-3), true,
reduction='mean')`; `model` abstracts `model(x)["out"]` and may raise. -/
def step (bceFn : Tensor → Tensor → ℚ) (model : Tensor → Except PyExc Tensor)
    (acc : EvalAcc) (p : Tensor × Tensor) : Except PyExc EvalAcc :=
  match normalizeDims p with
  | .error e => .error e
  | .ok (x, t, size) =>
    let trueC := t.clamp01
    match model x with
    | .error e => .error e
    | .ok pred =>
      let tl := trueC.argmaxFlat
      let pl := pred.argmaxFlat
      let oh := oneHot4 pred
      let mul := oh.hmul trueC
      let add := oh.hadd trueC
      .ok ⟨acc.logits ++ [pl], acc.targets ++ [tl], acc.total + size,
           acc.correct + fracEq pl tl * ((size : ℕ) : ℚ),
           acc.bce + bceFn pred trueC * ((size : ℕ) : ℚ),
           acc.dice + diceLossMean mul add * ((size : ℕ) : ℚ),
           acc.iou + iouLossMean mul add * ((size : ℕ) : ℚ)⟩

/-- The `for x, true in iterator:` loop of `all_together`: thread the
accumulators through `step`, propagating the first exception. -/
def evalLoop (bceFn : Tensor → Tensor → ℚ) (model : Tensor → Except PyExc Tensor) :
    EvalAcc → List (Tensor × Tensor) → Except PyExc EvalAcc
  | acc, [] => .ok acc
  | acc, p :: ps =>
    match step bceFn model acc p with
    | .error e => .error e
    | .ok a => evalLoop bceFn model a ps

/-- The tuple returned by `all_together`:
`(bce, dice, iou, correct, cm)`. -/
structure EvalResult where
  bce : ℚ
  dice : ℚ
  iou : ℚ
  correct : ℚ
  cm : List (List ℕ)
deriving DecidableEq

/-- `all_together(model, dataset)`: run the loop, concatenate the
per-batch label tensors (`torch.cat` raises on an empty list), build the
confusion matrix over `labels=range(6)`, and divide each accumulator by
the total sample count (a Python `ZeroDivisionError` when it is 0). -/
def all_together (bceFn : Tensor → Tensor → ℚ)
    (model : Tensor → Except PyExc Tensor)
    (ds : List (Tensor × Tensor)) : Except PyExc EvalResult :=
  match evalLoop bceFn model initAcc ds with
  | .error e => .error e
  | .ok acc =>
    if acc.logits.isEmpty then
      .error (.other "torch.cat on an empty list of tensors")
    else if acc.total = 0 then
      .error (.other "ZeroDivisionError")
    else
      .ok ⟨acc.bce / ((acc.total : ℕ) : ℚ), acc.dice / ((acc.total : ℕ) : ℚ),
           acc.iou / ((acc.total : ℕ) : ℚ), acc.correct / ((acc.total : ℕ) : ℚ),
           confusion_matrix acc.targets.flatten acc.logits.flatten 6⟩

/-- The four values printed by the `verbose` summary of `all_together`,
in terms of the returned scalars: the format call prints `bce`,
`1 - dice`, `1 - iou` and `correct * 100`. -/
structure PrintedSummary where
  bce : ℚ
  diceCoef : ℚ
  iouCoef : ℚ
  accPercent : ℚ
deriving DecidableEq

/-- The printed summary block of `all_together` as a function of the
returned result. -/
def printed_summary (r : EvalResult) : PrintedSummary :=
  ⟨r.bce, 1 - r.dice, 1 - r.iou, r.correct * 100⟩

/-- A deterministic model wrapped as a never-raising framework call. -/
def pureModel (m : Tensor → Tensor) : Tensor → Except PyExc Tensor :=
  fun x => .ok (m x)

/-- `np.trace(cf)` for a square matrix given as a list of rows. -/
def np_trace (cf : List (List ℚ)) : ℚ :=
  ((List.range cf.length).map (fun i => (cf.getD i []).getD i 0)).sum

/-- `np.sum(cf)` — the sum of all entries. -/
def np_sum (cf : List (List ℚ)) : ℚ := (cf.map List.sum).sum

/-- `cf[i, j]`. -/
def matAt (cf : List (List ℚ)) (i j : ℕ) : ℚ := (cf.getD i []).getD j 0

/-- `sum(cf[:, j])` — the sum of column `j`. -/
def colSum (cf : List (List ℚ)) (j : ℕ) : ℚ :=
  (cf.map (fun row => row.getD j 0)).sum

/-- `sum(cf[i, :])` — the sum of row `i`. -/
def rowSum (cf : List (List ℚ)) (i : ℕ) : ℚ := (cf.getD i []).sum

/-- The numeric content of the summary-statistics text block of
`draw_confusion_matrix`: the accuracy, and for binary matrices also
`(precision, recall, f1)`. -/
structure SummaryStats where
  accuracy : ℚ
  binary : Option (ℚ × ℚ × ℚ)
deriving DecidableEq

/-- `precision = cf[1,1] / sum(cf[:,1])` for a binary matrix. -/
def cf_precision (cf : List (List ℚ)) : ℚ := matAt cf 1 1 / colSum cf 1

/-- `recall = cf[1,1] / sum(cf[1,:])` for a binary matrix. -/
def cf_recall (cf : List (List ℚ)) : ℚ := matAt cf 1 1 / rowSum cf 1

/-- `f1_score = 2*precision*recall / (precision + recall)`. -/
def cf_f1 (cf : List (List ℚ)) : ℚ :=
  2 * cf_precision cf * cf_recall cf / (cf_precision cf + cf_recall cf)

/-- The `stats_text` computed by `draw_confusion_matrix` (lines 44-59):
`none` models the empty string.  Computed from the matrix as passed in,
before any mutation. -/
def stats_text (cf : List (List ℚ)) (sum_stats omit_diagonal : Bool) :
    Option SummaryStats :=
  if !omit_diagonal && sum_stats then
    let accuracy := np_trace cf / np_sum cf
    if cf.length = 2 then
      some ⟨accuracy, some (cf_precision cf, cf_recall cf, cf_f1 cf)⟩
    else some ⟨accuracy, none⟩
  else none

/-- `np.diagonal(cf)` — the main diagonal of a square matrix. -/
def np_diagonal (cf : List (List ℚ)) : List ℚ :=
  (List.range cf.length).map (fun i => matAt cf i i)

/-- `np.diagflat(d)` — the square matrix with diagonal `d` and zeros
elsewhere. -/
def np_diagflat (d : List ℚ) : List (List ℚ) :=
  (List.range d.length).map (fun i =>
    (List.range d.length).map (fun j => if i = j then d.getD i 0 else 0))

/-- Entrywise matrix subtraction (`cf -= ...` on same-shaped arrays). -/
def matSub (a b : List (List ℚ)) : List (List ℚ) :=
  List.zipWith (List.zipWith (fun x y => x - y)) a b

/-- The final state of the matrix argument after `draw_confusion_matrix`
returns: `cf -= np.diagflat(np.diagonal(cf))` is an in-place update when
`omit_diagonal` is true; otherwise `cf` is never written. -/
def draw_cf_final (cf : List (List ℚ)) (omit_diagonal : Bool) :
    List (List ℚ) :=
  if omit_diagonal then matSub cf (np_diagflat (np_diagonal cf)) else cf

/-- The pure observables of `draw_confusion_matrix cf` (with the
arguments the claims vary: `sum_stats`, `omit_diagonal`): the summary
statistics text rendered below the figure, computed before mutation, and
the final state of the caller's matrix. -/
def draw_confusion_matrix (cf : List (List ℚ))
    (sum_stats omit_diagonal : Bool) :
    Option SummaryStats × List (List ℚ) :=
  (stats_text cf sum_stats omit_diagonal, draw_cf_final cf omit_diagonal)

/-- The batch a dataset pair is processed as, when its dimensionality is
valid: a 4-D input as is with its leading size, a 3-D input and target
unsqueezed with size 1. -/
def batchOf (p : Tensor × Tensor) : Tensor × Tensor × ℕ :=
  if p.1.ndim = 4 then (p.1, p.2, p.1.size0)
  else (p.1.unsqueeze0, p.2.unsqueeze0, 1)

/-- The batch size a pair contributes to the running total. -/
def batch_size (p : Tensor × Tensor) : ℕ := (batchOf p).2.2

/-- The per-batch mean binary cross entropy of a pair. -/
def batch_bce (bceFn : Tensor → Tensor → ℚ) (m : Tensor → Tensor)
    (p : Tensor × Tensor) : ℚ :=
  bceFn (m (batchOf p).1) (batchOf p).2.1.clamp01

/-- The flattened per-pixel predicted labels of a pair. -/
def batch_pred_labels (m : Tensor → Tensor) (p : Tensor × Tensor) : List ℕ :=
  (m (batchOf p).1).argmaxFlat

/-- The flattened per-pixel ground-truth labels of a pair. -/
def batch_true_labels (p : Tensor × Tensor) : List ℕ :=
  (batchOf p).2.1.clamp01.argmaxFlat

/-- The per-batch mean pixel accuracy of a pair. -/
def batch_acc (m : Tensor → Tensor) (p : Tensor × Tensor) : ℚ :=
  fracEq (batch_pred_labels m p) (batch_true_labels p)

/-- The per-batch mean Dice loss of a pair. -/
def batch_dice (m : Tensor → Tensor) (p : Tensor × Tensor) : ℚ :=
  diceLossMean ((oneHot4 (m (batchOf p).1)).hmul (batchOf p).2.1.clamp01)
    ((oneHot4 (m (batchOf p).1)).hadd (batchOf p).2.1.clamp01)

/-- The per-batch mean IoU loss of a pair. -/
def batch_iou (m : Tensor → Tensor) (p : Tensor × Tensor) : ℚ :=
  iouLossMean ((oneHot4 (m (batchOf p).1)).hmul (batchOf p).2.1.clamp01)
    ((oneHot4 (m (batchOf p).1)).hadd (batchOf p).2.1.clamp01)

/-- A concrete one-pair dataset used to exercise the definitions: one
sample, two channels, one pixel. -/
def cX : Tensor := ⟨[1, 2, 1, 1], [0, 1]⟩

/-- The matching one-hot ground-truth tensor (class 0). -/
def cT : Tensor := ⟨[1, 2, 1, 1], [1, 0]⟩

/-- A concrete stand-in for the framework's mean binary cross entropy. -/
def cBce : Tensor → Tensor → ℚ := fun _ _ => 0

/-- A concrete deterministic model: the identity on tensors. -/
def cM : Tensor → Tensor := fun t => t

/-- The concrete dataset. -/
def cDs : List (Tensor × Tensor) := [(cX, cT)]

/-- The confusion matrix of the concrete run: one pixel, true class 0,
predicted class 1. -/
def cCm : List (List ℕ) :=
  [[0, 1, 0, 0, 0, 0], [0, 0, 0, 0, 0, 0], [0, 0, 0, 0, 0, 0],
   [0, 0, 0, 0, 0, 0], [0, 0, 0, 0, 0, 0], [0, 0, 0, 0, 0, 0]]

/-- The result of `all_together` on the concrete run. -/
def cRes : EvalResult := ⟨0, 1, 1, 0, cCm⟩

/-- A 1-D tensor, an invalid input dimensionality. -/
def cBad : Tensor := ⟨[2], [0, 0]⟩

/-- A 3-D version of the concrete input (`cX` without its batch axis). -/
def cX3 : Tensor := ⟨[2, 1, 1], [0, 1]⟩

/-- A 3-D version of the concrete target. -/
def cT3 : Tensor := ⟨[2, 1, 1], [1, 0]⟩

/-- A model call that always raises, standing for a framework failure
inside the loop. -/
def cFailModel : Tensor → Except PyExc Tensor :=
  fun _ => .error (.other "CUDA out of memory")

/-- A concrete 2x2 matrix with positive total, for the binary branch of
the summary statistics. -/
def cCf2 : List (List ℚ) := [[1, 2], [3, 4]]

lemma step_typeError (bceFn : Tensor → Tensor → ℚ)
    (model : Tensor → Except PyExc Tensor) (acc : EvalAcc) (p : Tensor × Tensor)
    (h4 : p.1.ndim ≠ 4) (h3 : p.1.ndim ≠ 3) :
    step bceFn model acc p = .error (.typeError "Invalid Input Dim") := by
  simp [step, normalizeDims, h4, h3]

lemma step_pure_eq (bceFn : Tensor → Tensor → ℚ) (m : Tensor → Tensor)
    (acc : EvalAcc) (p : Tensor × Tensor) (h : p.1.ndim = 4 ∨ p.1.ndim = 3) :
    step bceFn (pureModel m) acc p =
      .ok ⟨acc.logits ++ [batch_pred_labels m p],
           acc.targets ++ [batch_true_labels p],
           acc.total + batch_size p,
           acc.correct + batch_acc m p * ((batch_size p : ℕ) : ℚ),
           acc.bce + batch_bce bceFn m p * ((batch_size p : ℕ) : ℚ),
           acc.dice + batch_dice m p * ((batch_size p : ℕ) : ℚ),
           acc.iou + batch_iou m p * ((batch_size p : ℕ) : ℚ)⟩ := by
  rcases h with h | h
  · simp [step, normalizeDims, h, pureModel, batchOf, batch_pred_labels,
      batch_true_labels, batch_size, batch_acc, batch_bce, batch_dice, batch_iou]
  · have h4 : p.1.ndim ≠ 4 := by omega
    simp [step, normalizeDims, h, h4, pureModel, batchOf, batch_pred_labels,
      batch_true_labels, batch_size, batch_acc, batch_bce, batch_dice, batch_iou]

lemma evalLoop_pure_ok (bceFn : Tensor → Tensor → ℚ) (m : Tensor → Tensor) :
    ∀ (ds : List (Tensor × Tensor)) (acc acc' : EvalAcc),
    evalLoop bceFn (pureModel m) acc ds = .ok acc' →
    acc'.logits = acc.logits ++ ds.map (batch_pred_labels m) ∧
    acc'.targets = acc.targets ++ ds.map batch_true_labels ∧
    acc'.total = acc.total + (ds.map batch_size).sum ∧
    acc'.correct =
      acc.correct + (ds.map (fun p => batch_acc m p * ((batch_size p : ℕ) : ℚ))).sum ∧
    acc'.bce =
      acc.bce + (ds.map (fun p => batch_bce bceFn m p * ((batch_size p : ℕ) : ℚ))).sum ∧
    acc'.dice =
      acc.dice + (ds.map (fun p => batch_dice m p * ((batch_size p : ℕ) : ℚ))).sum ∧
    acc'.iou =
      acc.iou + (ds.map (fun p => batch_iou m p * ((batch_size p : ℕ) : ℚ))).sum := by
  intro ds
  induction ds with
  | nil =>
    intro acc acc' h
    simp [evalLoop] at h
    simp [h]
  | cons p ps ih =>
    intro acc acc' h
    by_cases hdim : p.1.ndim = 4 ∨ p.1.ndim = 3
    · rw [evalLoop, step_pure_eq bceFn m acc p hdim] at h
      have spec := ih _ acc' h
      obtain ⟨h1, h2, h3, h4, h5, h6, h7⟩ := spec
      refine ⟨?_, ?_, ?_, ?_, ?_, ?_, ?_⟩ <;>
        simp [h1, h2, h3, h4, h5, h6, h7] <;> ring
    · push_neg at hdim
      rw [evalLoop, step_typeError bceFn (pureModel m) acc p hdim.1 hdim.2] at h
      exact absurd h (by simp)

lemma evalLoop_pure_error_typeError (bceFn : Tensor → Tensor → ℚ)
    (m : Tensor → Tensor) :
    ∀ (ds : List (Tensor × Tensor)) (acc : EvalAcc) (e : PyExc),
    evalLoop bceFn (pureModel m) acc ds = .error e → ∃ msg, e = .typeError msg := by
  intro ds
  induction ds with
  | nil => intro acc e h; exact absurd h (by simp [evalLoop])
  | cons p ps ih =>
    intro acc e h
    by_cases hdim : p.1.ndim = 4 ∨ p.1.ndim = 3
    · rw [evalLoop, step_pure_eq bceFn m acc p hdim] at h
      exact ih _ e h
    · push_neg at hdim
      rw [evalLoop, step_typeError bceFn (pureModel m) acc p hdim.1 hdim.2] at h
      exact ⟨"Invalid Input Dim", by simpa using h.symm⟩

lemma evalLoop_pure_typeError_iff (bceFn : Tensor → Tensor → ℚ)
    (m : Tensor → Tensor) :
    ∀ (ds : List (Tensor × Tensor)) (acc : EvalAcc),
    (∃ msg, evalLoop bceFn (pureModel m) acc ds = .error (.typeError msg)) ↔
      ∃ p ∈ ds, p.1.ndim ≠ 3 ∧ p.1.ndim ≠ 4 := by
  intro ds
  induction ds with
  | nil => intro acc; simp [evalLoop]
  | cons p ps ih =>
    intro acc
    by_cases hdim : p.1.ndim = 4 ∨ p.1.ndim = 3
    · rw [evalLoop, step_pure_eq bceFn m acc p hdim]
      have hvalid : ¬(p.1.ndim ≠ 3 ∧ p.1.ndim ≠ 4) := by
        rcases hdim with h | h <;> simp [h]
      simp only [List.mem_cons]
      constructor
      · intro hmsg
        obtain ⟨q, hq, hbad⟩ := (ih _).mp hmsg
        exact ⟨q, Or.inr hq, hbad⟩
      · rintro ⟨q, hq | hq, hbad⟩
        · exact absurd (hq ▸ hbad) hvalid
        · exact (ih _).mpr ⟨q, hq, hbad⟩
    · push_neg at hdim
      rw [evalLoop, step_typeError bceFn (pureModel m) acc p hdim.1 hdim.2]
      constructor
      · intro _
        exact ⟨p, List.mem_cons_self p ps, hdim.2, hdim.1⟩
      · intro _
        exact ⟨"Invalid Input Dim", rfl⟩

lemma all_together_ok (bceFn : Tensor → Tensor → ℚ)
    (model : Tensor → Except PyExc Tensor)
    (ds : List (Tensor × Tensor)) (r : EvalResult)
    (h : all_together bceFn model ds = .ok r) :
    ∃ acc : EvalAcc, evalLoop bceFn model initAcc ds = .ok acc ∧
      acc.logits.isEmpty = false ∧ acc.total ≠ 0 ∧
      r = ⟨acc.bce / ((acc.total : ℕ) : ℚ), acc.dice / ((acc.total : ℕ) : ℚ),
           acc.iou / ((acc.total : ℕ) : ℚ), acc.correct / ((acc.total : ℕ) : ℚ),
           confusion_matrix acc.targets.flatten acc.logits.flatten 6⟩ := by
  cases hE : evalLoop bceFn model initAcc ds with
  | error e => rw [all_together, hE] at h; exact absurd h (by simp)
  | ok acc =>
    rw [all_together, hE] at h
    dsimp only at h
    by_cases hemp : acc.logits.isEmpty
    · rw [if_pos hemp] at h; exact absurd h (by simp)
    · rw [if_neg hemp] at h
      by_cases htot : acc.total = 0
      · rw [if_pos htot] at h; exact absurd h (by simp)
      · rw [if_neg htot] at h
        exact ⟨acc, rfl, by simpa using hemp, htot, (Except.ok.inj h).symm⟩

/-- C1: `all_together` raises a type error if and only if some yielded
input tensor has a dimensionality other than 3 or 4; moreover a pair
with an unsupported dimensionality raises `TypeError` directly at its
loop iteration, whatever the accumulator state, so no metric for that
pair is accumulated. -/
theorem C1_type_error_iff_bad_ndim (bceFn : Tensor → Tensor → ℚ)
    (m : Tensor → Tensor) (ds : List (Tensor × Tensor)) :
    ((∃ msg, all_together bceFn (pureModel m) ds = .error (.typeError msg)) ↔
      ∃ p ∈ ds, p.1.ndim ≠ 3 ∧ p.1.ndim ≠ 4) ∧
    (∀ (acc : EvalAcc) (x t : Tensor), x.ndim ≠ 3 → x.ndim ≠ 4 →
      step bceFn (pureModel m) acc (x, t) =
        .error (.typeError "Invalid Input Dim")) := by
  constructor
  · cases hE : evalLoop bceFn (pureModel m) initAcc ds with
    | error e =>
      obtain ⟨msg, hmsg⟩ := evalLoop_pure_error_typeError bceFn m ds initAcc e hE
      subst hmsg
      have hleft : ∃ msg2, all_together bceFn (pureModel m) ds =
          .error (.typeError msg2) := ⟨msg, by rw [all_together, hE]⟩
      have hright := (evalLoop_pure_typeError_iff bceFn m ds initAcc).mp ⟨msg, hE⟩
      exact iff_of_true hleft hright
    | ok acc =>
      have hleft : ¬∃ msg, all_together bceFn (pureModel m) ds =
          .error (.typeError msg) := by
        rintro ⟨msg, hmsg⟩
        rw [all_together, hE] at hmsg
        dsimp only at hmsg
        by_cases hemp : acc.logits.isEmpty
        · rw [if_pos hemp] at hmsg; simp at hmsg
        · rw [if_neg hemp] at hmsg
          by_cases htot : acc.total = 0
          · rw [if_pos htot] at hmsg; simp at hmsg
          · rw [if_neg htot] at hmsg; simp at hmsg
      have hright : ¬∃ p ∈ ds, p.1.ndim ≠ 3 ∧ p.1.ndim ≠ 4 := by
        intro hbad
        obtain ⟨msg, hmsg⟩ := (evalLoop_pure_typeError_iff bceFn m ds initAcc).mpr hbad
        rw [hE] at hmsg
        exact absurd hmsg (by simp)
      exact iff_of_false hleft hright
  · intro acc x t h3 h4
    exact step_typeError bceFn (pureModel m) acc (x, t) h4 h3

/-- C1 witness: a 1-D input raises the `TypeError` at its own loop
iteration, before anything is accumulated. -/
theorem C1_witness :
    step cBce (pureModel cM) initAcc (cBad, cBad) =
      .error (.typeError "Invalid Input Dim") :=
  (C1_type_error_iff_bad_ndim cBce cM [(cBad, cBad)]).2 initAcc cBad cBad
    (by decide) (by decide)

/-- C2: each scalar returned by `all_together` is the batch-size
weighted mean of the per-batch metric values: the sum over batches of
the per-batch mean metric times the batch size, divided by the total
number of samples processed. -/
theorem C2_weighted_mean (bceFn : Tensor → Tensor → ℚ) (m : Tensor → Tensor)
    (ds : List (Tensor × Tensor)) (r : EvalResult)
    (h : all_together bceFn (pureModel m) ds = .ok r) :
    r.bce = (ds.map (fun p => batch_bce bceFn m p * ((batch_size p : ℕ) : ℚ))).sum
              / (((ds.map batch_size).sum : ℕ) : ℚ) ∧
    r.dice = (ds.map (fun p => batch_dice m p * ((batch_size p : ℕ) : ℚ))).sum
              / (((ds.map batch_size).sum : ℕ) : ℚ) ∧
    r.iou = (ds.map (fun p => batch_iou m p * ((batch_size p : ℕ) : ℚ))).sum
              / (((ds.map batch_size).sum : ℕ) : ℚ) ∧
    r.correct = (ds.map (fun p => batch_acc m p * ((batch_size p : ℕ) : ℚ))).sum
              / (((ds.map batch_size).sum : ℕ) : ℚ) := by
  obtain ⟨acc, hE, hemp, htot, hr⟩ := all_together_ok bceFn (pureModel m) ds r h
  obtain ⟨h1, h2, h3, h4, h5, h6, h7⟩ := evalLoop_pure_ok bceFn m ds initAcc acc hE
  simp only [initAcc] at h1 h2 h3 h4 h5 h6 h7
  subst hr
  refine ⟨?_, ?_, ?_, ?_⟩ <;> simp [h3, h4, h5, h6, h7]

/-- C2 witness: the weighted-mean identities evaluated on the concrete
one-batch run. -/
theorem C2_witness :
    cRes.bce = (cDs.map (fun p => batch_bce cBce cM p * ((batch_size p : ℕ) : ℚ))).sum
              / (((cDs.map batch_size).sum : ℕ) : ℚ) ∧
    cRes.dice = (cDs.map (fun p => batch_dice cM p * ((batch_size p : ℕ) : ℚ))).sum
              / (((cDs.map batch_size).sum : ℕ) : ℚ) ∧
    cRes.iou = (cDs.map (fun p => batch_iou cM p * ((batch_size p : ℕ) : ℚ))).sum
              / (((cDs.map batch_size).sum : ℕ) : ℚ) ∧
    cRes.correct = (cDs.map (fun p => batch_acc cM p * ((batch_size p : ℕ) : ℚ))).sum
              / (((cDs.map batch_size).sum : ℕ) : ℚ) :=
  C2_weighted_mean cBce cM cDs cRes (by
    norm_num [all_together, evalLoop, step, normalizeDims, cX, cT, cBce, cM, cDs,
      pureModel, initAcc, cRes, cCm,
      Tensor.ndim, Tensor.size0, Tensor.clamp01, Tensor.argmaxFlat, argmaxLabelAt,
      argmaxIdx, Tensor.channelSlice, Tensor.at4, oneHot4, Tensor.hmul, Tensor.hadd,
      fracEq, diceLossMean, iouLossMean, sampleSum, confusion_matrix,
      List.range_succ, List.enum, List.enumFrom, List.countP, List.countP.go,
      Nat.beq, cond]
    decide)

lemma getD_map_range {α : Type} (f : ℕ → α) (n i : ℕ) (d : α) (h : i < n) :
    ((List.range n).map f).getD i d = f i := by
  simp [List.getD, List.getElem?_map, List.getElem?_range, h]

lemma confusion_matrix_entry (yt yp : List ℕ) (n i j : ℕ)
    (hi : i < n) (hj : j < n) :
    (((confusion_matrix yt yp n).getD i []).getD j 0 : ℕ) =
      (yt.zip yp).countP (fun q => q.1 == i && q.2 == j) := by
  rw [confusion_matrix, getD_map_range _ _ _ _ hi, getD_map_range _ _ _ _ hj]

lemma confusion_matrix_shape (yt yp : List ℕ) (n : ℕ) :
    (confusion_matrix yt yp n).length = n ∧
      ∀ row ∈ confusion_matrix yt yp n, row.length = n := by
  constructor
  · simp [confusion_matrix]
  · intro row hrow
    rw [confusion_matrix] at hrow
    obtain ⟨i, _, hrow⟩ := List.mem_map.mp hrow
    simp [← hrow]

lemma concrete_run_ok : all_together cBce (pureModel cM) cDs = .ok cRes := by
  norm_num [all_together, evalLoop, step, normalizeDims, cX, cT, cBce, cM, cDs,
    pureModel, initAcc, cRes, cCm,
    Tensor.ndim, Tensor.size0, Tensor.clamp01, Tensor.argmaxFlat, argmaxLabelAt,
    argmaxIdx, Tensor.channelSlice, Tensor.at4, oneHot4, Tensor.hmul, Tensor.hadd,
    fracEq, diceLossMean, iouLossMean, sampleSum, confusion_matrix,
    List.range_succ, List.enum, List.enumFrom, List.countP, List.countP.go,
    Nat.beq, cond]
  decide

/-- C3 counterexample: on a concrete run the printed summary does not
report the same Dice and IoU values as the returned tuple — the figures
printed under the labels "Dice-Coefficient" and "Intersection over
Union" are one minus the returned scalars, which differ here. -/
theorem C3_counterexample :
    all_together cBce (pureModel cM) cDs = .ok cRes ∧
    (printed_summary cRes).diceCoef ≠ cRes.dice ∧
    (printed_summary cRes).iouCoef ≠ cRes.iou := by
  refine ⟨concrete_run_ok, ?_, ?_⟩ <;> norm_num [printed_summary, cRes]

/-- C3 (amended): `all_together` returns the tuple `(cross-entropy,
Dice loss, IoU loss, accuracy, confusion matrix)`; the printed summary
reports the cross-entropy and the accuracy (as a percentage) of the
returned tuple, and reports the Dice coefficient and the IoU as one
minus the returned Dice and IoU losses. -/
theorem C3_returned_tuple_vs_printed (bceFn : Tensor → Tensor → ℚ)
    (model : Tensor → Except PyExc Tensor) (ds : List (Tensor × Tensor))
    (r : EvalResult) (_h : all_together bceFn model ds = .ok r) :
    (printed_summary r).bce = r.bce ∧
    (printed_summary r).diceCoef = 1 - r.dice ∧
    (printed_summary r).iouCoef = 1 - r.iou ∧
    (printed_summary r).accPercent = r.correct * 100 := by
  exact ⟨rfl, rfl, rfl, rfl⟩

/-- C3 witness: the printed-summary relations on the concrete run. -/
theorem C3_witness :
    (printed_summary cRes).bce = cRes.bce ∧
    (printed_summary cRes).diceCoef = 1 - cRes.dice ∧
    (printed_summary cRes).iouCoef = 1 - cRes.iou ∧
    (printed_summary cRes).accPercent = cRes.correct * 100 :=
  C3_returned_tuple_vs_printed cBce (pureModel cM) cDs cRes concrete_run_ok

/-- C4: the confusion matrix returned by `all_together` is computed from
the concatenation over all batches of the flattened per-pixel predicted
labels (argmax of the model output over the class dimension) against the
flattened per-pixel ground-truth labels, and entry `(i, j)` counts the
pixels whose true class is `i` and predicted class is `j`. -/
theorem C4_confusion_from_flattened_argmax (bceFn : Tensor → Tensor → ℚ)
    (m : Tensor → Tensor) (ds : List (Tensor × Tensor)) (r : EvalResult)
    (h : all_together bceFn (pureModel m) ds = .ok r) :
    r.cm = confusion_matrix (ds.map batch_true_labels).flatten
             (ds.map (batch_pred_labels m)).flatten 6 ∧
    ∀ i j : ℕ, i < 6 → j < 6 →
      ((r.cm.getD i []).getD j 0 : ℕ) =
        ((ds.map batch_true_labels).flatten.zip
          (ds.map (batch_pred_labels m)).flatten).countP
            (fun q => q.1 == i && q.2 == j) := by
  obtain ⟨acc, hE, hemp, htot, hr⟩ := all_together_ok bceFn (pureModel m) ds r h
  obtain ⟨h1, h2, _, _, _, _, _⟩ := evalLoop_pure_ok bceFn m ds initAcc acc hE
  simp only [initAcc, List.nil_append] at h1 h2
  have hcm : r.cm = confusion_matrix (ds.map batch_true_labels).flatten
      (ds.map (batch_pred_labels m)).flatten 6 := by
    rw [hr]
    simp [h1, h2]
  refine ⟨hcm, ?_⟩
  intro i j hi hj
  rw [hcm, confusion_matrix_entry _ _ 6 i j hi hj]

/-- C4 witness: the confusion-matrix identities on the concrete run,
instantiated at entry `(0, 1)`. -/
theorem C4_witness :
    cRes.cm = confusion_matrix (cDs.map batch_true_labels).flatten
             (cDs.map (batch_pred_labels cM)).flatten 6 ∧
    ((cRes.cm.getD 0 []).getD 1 0 : ℕ) =
        ((cDs.map batch_true_labels).flatten.zip
          (cDs.map (batch_pred_labels cM)).flatten).countP
            (fun q => q.1 == 0 && q.2 == 1) :=
  ⟨(C4_confusion_from_flattened_argmax cBce cM cDs cRes concrete_run_ok).1,
   (C4_confusion_from_flattened_argmax cBce cM cDs cRes concrete_run_ok).2
     0 1 (by decide) (by decide)⟩

/-- C5: with `sum_stats` on and `omit_diagonal` off, the summary text of
`draw_confusion_matrix` carries the accuracy `trace(cf)/sum(cf)` and,
for a binary (2-row) matrix, also precision `cf[1,1]/sum(cf[:,1])`,
recall `cf[1,1]/sum(cf[1,:])` and their F1; with `sum_stats` off or
`omit_diagonal` on, the summary text is empty. -/
theorem C5_summary_statistics (cf : List (List ℚ)) (sum_s omit_d : Bool)
    (_hpos : 0 < np_sum cf) :
    (draw_confusion_matrix cf true false).1 =
      some ⟨np_trace cf / np_sum cf,
        if cf.length = 2 then some (cf_precision cf, cf_recall cf, cf_f1 cf)
        else none⟩ ∧
    (sum_s = false ∨ omit_d = true →
      (draw_confusion_matrix cf sum_s omit_d).1 = none) := by
  constructor
  · by_cases h2 : cf.length = 2 <;>
      simp [draw_confusion_matrix, stats_text, h2]
  · rintro (rfl | rfl) <;> simp [draw_confusion_matrix, stats_text]

/-- C5 witness: the summary statistics of a concrete binary matrix with
positive total, and its emptiness when `omit_diagonal` is set. -/
theorem C5_witness :
    0 < np_sum cCf2 ∧
    (draw_confusion_matrix cCf2 true false).1 =
      some ⟨np_trace cCf2 / np_sum cCf2,
        if cCf2.length = 2 then
          some (cf_precision cCf2, cf_recall cCf2, cf_f1 cCf2)
        else none⟩ ∧
    (draw_confusion_matrix cCf2 false true).1 = none :=
  have hp : 0 < np_sum cCf2 := by norm_num [np_sum, cCf2]
  ⟨hp, (C5_summary_statistics cCf2 false true hp).1,
    (C5_summary_statistics cCf2 false true hp).2 (Or.inl rfl)⟩

lemma evalLoop_append (bceFn : Tensor → Tensor → ℚ)
    (model : Tensor → Except PyExc Tensor) :
    ∀ (l1 l2 : List (Tensor × Tensor)) (acc : EvalAcc),
    evalLoop bceFn model acc (l1 ++ l2) =
      match evalLoop bceFn model acc l1 with
      | .error e => .error e
      | .ok a => evalLoop bceFn model a l2 := by
  intro l1
  induction l1 with
  | nil => intro l2 acc; rfl
  | cons p ps ih =>
    intro l2 acc
    rw [List.cons_append]
    simp only [evalLoop]
    cases hs : step bceFn model acc p with
    | error e => rfl
    | ok a => exact ih l2 a

/-- C6: apart from the dimensionality `TypeError`, the evaluation loop
has no error handling: an exception raised by the model call at any pair
reached by the loop propagates unchanged out of `all_together`. -/
theorem C6_loop_exceptions_propagate (bceFn : Tensor → Tensor → ℚ)
    (model : Tensor → Except PyExc Tensor)
    (pre post : List (Tensor × Tensor)) (x t x2 t2 : Tensor) (size : ℕ)
    (acc : EvalAcc) (e : PyExc)
    (hpre : evalLoop bceFn model initAcc pre = .ok acc)
    (hnorm : normalizeDims (x, t) = .ok (x2, t2, size))
    (hm : model x2 = .error e) :
    all_together bceFn model (pre ++ (x, t) :: post) = .error e := by
  have hstep : step bceFn model acc (x, t) = .error e := by
    simp only [step, hnorm]
    rw [hm]
  have hloop : evalLoop bceFn model initAcc (pre ++ (x, t) :: post) = .error e := by
    rw [evalLoop_append bceFn model pre ((x, t) :: post) initAcc, hpre]
    simp only [evalLoop, hstep]
  rw [all_together, hloop]

/-- C6 witness: a framework failure in the model call on the concrete
dataset propagates unchanged to the caller. -/
theorem C6_witness :
    all_together cBce cFailModel ([] ++ (cX, cT) :: []) =
      .error (.other "CUDA out of memory") :=
  C6_loop_exceptions_propagate cBce cFailModel [] [] cX cT cX cT 1 initAcc
    (.other "CUDA out of memory") rfl
    (by norm_num [normalizeDims, cX, Tensor.ndim, Tensor.size0]) rfl

/-- C7: whenever `all_together` returns, its confusion matrix is a 2-D
array with exactly 6 rows of 6 entries each, whatever labels occur in
the data, because it is built over `labels=range(6)`. -/
theorem C7_cm_always_6x6 (bceFn : Tensor → Tensor → ℚ)
    (model : Tensor → Except PyExc Tensor) (ds : List (Tensor × Tensor))
    (r : EvalResult) (h : all_together bceFn model ds = .ok r) :
    r.cm.length = 6 ∧ ∀ row ∈ r.cm, row.length = 6 := by
  obtain ⟨acc, hE, hemp, htot, hr⟩ := all_together_ok bceFn model ds r h
  subst hr
  exact confusion_matrix_shape _ _ 6

/-- C7 witness: the shape facts on the concrete run, with the second
conjunct instantiated at the first row. -/
theorem C7_witness :
    cRes.cm.length = 6 ∧ ([0, 1, 0, 0, 0, 0] : List ℕ).length = 6 :=
  ⟨(C7_cm_always_6x6 cBce (pureModel cM) cDs cRes concrete_run_ok).1,
   (C7_cm_always_6x6 cBce (pureModel cM) cDs cRes concrete_run_ok).2
     [0, 1, 0, 0, 0, 0] (by decide)⟩

/-- C8: `all_together` is deterministic — two runs with extensionally
equal bce/model functions and equal dataset sequences return identical
results (all four scalars and the confusion matrix). -/
theorem C8_deterministic (bceFn1 bceFn2 : Tensor → Tensor → ℚ)
    (model1 model2 : Tensor → Except PyExc Tensor)
    (ds1 ds2 : List (Tensor × Tensor))
    (hb : ∀ x t, bceFn1 x t = bceFn2 x t)
    (hm : ∀ x, model1 x = model2 x)
    (hd : ds1 = ds2) :
    all_together bceFn1 model1 ds1 = all_together bceFn2 model2 ds2 := by
  have hb2 : bceFn1 = bceFn2 := funext fun x => funext fun t => hb x t
  have hm2 : model1 = model2 := funext hm
  rw [hb2, hm2, hd]

/-- C8 witness: two identical concrete runs agree. -/
theorem C8_witness :
    all_together cBce (pureModel cM) cDs = all_together cBce (pureModel cM) cDs :=
  C8_deterministic cBce cBce (pureModel cM) (pureModel cM) cDs cDs
    (fun _ _ => rfl) (fun _ => rfl) rfl

lemma getD_zipWith {α β γ : Type} (f : α → β → γ) (da : α) (db : β) (dc : γ) :
    ∀ (a : List α) (b : List β) (i : ℕ), i < a.length → i < b.length →
    (List.zipWith f a b).getD i dc = f (a.getD i da) (b.getD i db) := by
  intro a
  induction a with
  | nil => intro b i h1 _; exact absurd h1 (by simp)
  | cons x xs ih =>
    intro b i h1 h2
    cases b with
    | nil => exact absurd h2 (by simp)
    | cons y ys =>
      cases i with
      | zero => simp
      | succ n =>
        simpa using ih ys n (by simpa using h1) (by simpa using h2)

lemma np_diagonal_length (cf : List (List ℚ)) :
    (np_diagonal cf).length = cf.length := by
  simp [np_diagonal]

lemma np_diagonal_getD (cf : List (List ℚ)) (i : ℕ) (hi : i < cf.length) :
    (np_diagonal cf).getD i 0 = matAt cf i i := by
  rw [np_diagonal, getD_map_range _ _ _ _ hi]

lemma np_diagflat_entry (d : List ℚ) (i j : ℕ)
    (hi : i < d.length) (hj : j < d.length) :
    matAt (np_diagflat d) i j = if i = j then d.getD i 0 else 0 := by
  rw [matAt, np_diagflat, getD_map_range _ _ _ _ hi, getD_map_range _ _ _ _ hj]

lemma np_diagflat_length (d : List ℚ) : (np_diagflat d).length = d.length := by
  simp [np_diagflat]

lemma np_diagflat_row_length (d : List ℚ) (i : ℕ) (hi : i < d.length) :
    ((np_diagflat d).getD i []).length = d.length := by
  rw [np_diagflat, getD_map_range _ _ _ _ hi]
  simp

lemma getD_mem_of_lt {α : Type} (l : List α) (i : ℕ) (d : α) (h : i < l.length) :
    l.getD i d ∈ l := by
  rw [List.getD_eq_getElem l d h]
  exact List.getElem_mem h

/-- C9: when `omit_diagonal` is true, `draw_confusion_matrix` mutates
the caller's square matrix in place — every diagonal entry of `cf` ends
up zero and every off-diagonal entry is unchanged — and when
`omit_diagonal` is false, `cf` is left entirely unchanged. -/
theorem C9_omit_diagonal_mutates_in_place (cf : List (List ℚ)) (sum_s : Bool)
    (hsq : ∀ row ∈ cf, row.length = cf.length) :
    ((draw_confusion_matrix cf sum_s true).2.length = cf.length ∧
     ∀ i j : ℕ, i < cf.length → j < cf.length →
       matAt (draw_confusion_matrix cf sum_s true).2 i j =
         if i = j then 0 else matAt cf i j) ∧
    (draw_confusion_matrix cf sum_s false).2 = cf := by
  refine ⟨⟨?_, ?_⟩, ?_⟩
  · simp [draw_confusion_matrix, draw_cf_final, matSub, np_diagflat_length,
      np_diagonal_length]
  · intro i j hi hj
    have hdl : (np_diagonal cf).length = cf.length := np_diagonal_length cf
    have hrowlen : (cf.getD i []).length = cf.length :=
      hsq _ (getD_mem_of_lt cf i [] hi)
    have hdfi : i < (np_diagflat (np_diagonal cf)).length := by
      rw [np_diagflat_length, hdl]; exact hi
    have hrow : (draw_confusion_matrix cf sum_s true).2.getD i [] =
        List.zipWith (fun x y => x - y) (cf.getD i [])
          ((np_diagflat (np_diagonal cf)).getD i []) := by
      simp only [draw_confusion_matrix, draw_cf_final, if_pos, matSub]
      exact getD_zipWith _ [] [] [] cf (np_diagflat (np_diagonal cf)) i hi hdfi
    have hdfrowlen : ((np_diagflat (np_diagonal cf)).getD i []).length = cf.length := by
      rw [np_diagflat_row_length (np_diagonal cf) i (by rw [hdl]; exact hi), hdl]
    rw [matAt, hrow, getD_zipWith _ 0 0 0 _ _ j (by rw [hrowlen]; exact hj)
      (by rw [hdfrowlen]; exact hj)]
    have hdfe : matAt (np_diagflat (np_diagonal cf)) i j =
        if i = j then (np_diagonal cf).getD i 0 else 0 :=
      np_diagflat_entry (np_diagonal cf) i j (by rw [hdl]; exact hi)
        (by rw [hdl]; exact hj)
    rw [matAt] at hdfe
    rw [hdfe, np_diagonal_getD cf i hi]
    by_cases hij : i = j
    · subst hij
      simp [matAt]
    · simp [hij, matAt]
  · simp [draw_confusion_matrix, draw_cf_final]

/-- C9 witness: the in-place mutation facts on a concrete binary matrix,
with the entry fact instantiated at the diagonal entry `(1, 1)`. -/
theorem C9_witness :
    (draw_confusion_matrix cCf2 true true).2.length = cCf2.length ∧
    matAt (draw_confusion_matrix cCf2 true true).2 1 1 =
      if 1 = 1 then 0 else matAt cCf2 1 1 :=
  ⟨(C9_omit_diagonal_mutates_in_place cCf2 true (by decide)).1.1,
   (C9_omit_diagonal_mutates_in_place cCf2 true (by decide)).1.2 1 1
     (by decide) (by decide)⟩

lemma step_unsqueeze_eq (bceFn : Tensor → Tensor → ℚ)
    (model : Tensor → Except PyExc Tensor) (acc : EvalAcc) (x t : Tensor)
    (hx : x.ndim = 3) :
    step bceFn model acc (x, t) =
      step bceFn model acc (x.unsqueeze0, t.unsqueeze0) := by
  have h4 : x.ndim ≠ 4 := by omega
  have hu : x.unsqueeze0.ndim = 4 := by
    simp [Tensor.unsqueeze0, Tensor.ndim] at hx ⊢
    omega
  have hs : x.unsqueeze0.size0 = 1 := by
    simp [Tensor.unsqueeze0, Tensor.size0]
  simp [step, normalizeDims, hx, h4, hu, hs]

lemma evalLoop_unsqueeze (bceFn : Tensor → Tensor → ℚ)
    (model : Tensor → Except PyExc Tensor) :
    ∀ (ds : List (Tensor × Tensor)) (acc : EvalAcc),
    (∀ p ∈ ds, (Prod.fst p).ndim = 3) →
    evalLoop bceFn model acc ds =
      evalLoop bceFn model acc
        (ds.map (fun p => (p.1.unsqueeze0, p.2.unsqueeze0))) := by
  intro ds
  induction ds with
  | nil => intro acc _; rfl
  | cons p ps ih =>
    intro acc h
    have hp : p.1.ndim = 3 := h p (List.mem_cons_self p ps)
    simp only [List.map_cons, evalLoop]
    rw [← step_unsqueeze_eq bceFn model acc p.1 p.2 hp]
    cases hs : step bceFn model acc p with
    | error e => rfl
    | ok a => exact ih a (fun q hq => h q (List.mem_cons_of_mem p hq))

lemma step_ok_total_of_3d (bceFn : Tensor → Tensor → ℚ)
    (model : Tensor → Except PyExc Tensor) (acc : EvalAcc) (x t : Tensor)
    (a : EvalAcc) (hx : x.ndim = 3)
    (h : step bceFn model acc (x, t) = .ok a) : a.total = acc.total + 1 := by
  rw [step_unsqueeze_eq bceFn model acc x t hx] at h
  have hu : x.unsqueeze0.ndim = 4 := by
    simp [Tensor.unsqueeze0, Tensor.ndim] at hx ⊢
    omega
  have hs : x.unsqueeze0.size0 = 1 := by
    simp [Tensor.unsqueeze0, Tensor.size0]
  simp only [step, normalizeDims, hu, hs, eq_self_iff_true, if_true] at h
  cases hm : model x.unsqueeze0 with
  | error e => rw [hm] at h; exact absurd h (by simp)
  | ok pred =>
    rw [hm] at h
    dsimp only at h
    rw [← Except.ok.inj h]

/-- C10: a dataset whose inputs are all 3-dimensional is processed
exactly as the element-wise unsqueezed dataset of 4-dimensional pairs
(leading batch axis of size 1 added to input and target), returning the
same tuple; and a 3-D pair contributes weight exactly 1 to the running
totals at its loop iteration. -/
theorem C10_3d_as_singleton_batch (bceFn : Tensor → Tensor → ℚ)
    (model : Tensor → Except PyExc Tensor) (ds : List (Tensor × Tensor))
    (acc : EvalAcc) (x t : Tensor) (a : EvalAcc)
    (h3 : ∀ p ∈ ds, (Prod.fst p).ndim = 3)
    (hx : x.ndim = 3)
    (hstep : step bceFn model acc (x, t) = .ok a) :
    all_together bceFn model ds =
      all_together bceFn model
        (ds.map (fun p => (p.1.unsqueeze0, p.2.unsqueeze0))) ∧
    a.total = acc.total + 1 := by
  refine ⟨?_, step_ok_total_of_3d bceFn model acc x t a hx hstep⟩
  rw [all_together, all_together,
    ← evalLoop_unsqueeze bceFn model ds initAcc h3]

/-- C10 witness: the concrete 3-D pair runs identically to its
unsqueezed 4-D version and contributes batch weight 1. -/
theorem C10_witness :
    all_together cBce (pureModel cM) [(cX3, cT3)] =
      all_together cBce (pureModel cM)
        ([(cX3, cT3)].map (fun p => (p.1.unsqueeze0, p.2.unsqueeze0))) ∧
    (⟨[[1]], [[0]], 1, 0, 0, 1, 1⟩ : EvalAcc).total = initAcc.total + 1 :=
  C10_3d_as_singleton_batch cBce (pureModel cM) [(cX3, cT3)] initAcc cX3 cT3
    ⟨[[1]], [[0]], 1, 0, 0, 1, 1⟩ (by decide) (by decide)
    (by
      norm_num [step, normalizeDims, cX3, cT3, cBce, cM, pureModel, initAcc,
        Tensor.ndim, Tensor.size0, Tensor.unsqueeze0, Tensor.clamp01,
        Tensor.argmaxFlat, argmaxLabelAt, argmaxIdx, Tensor.channelSlice,
        Tensor.at4, oneHot4, Tensor.hmul, Tensor.hadd, fracEq, diceLossMean,
        iouLossMean, sampleSum, List.range_succ, List.enum, List.enumFrom,
        List.countP, List.countP.go, Nat.beq, cond]
      decide)
